import Mathlib

/-!
Verification of the MFTAnalyzer record-store and analysis engine
(`src/app/gui_dash.py`) against its natural-language specification.

The pandas dataframe of MFT rows is modelled as a `List Record` together
with a `Schema` recording which columns are present in the loaded CSV
(pandas column-presence checks such as `'FileName' in df.columns` become
boolean schema flags).  Each filter of
`MFTAnalyzer.apply_advanced_filters` becomes a guarded `List.filter`
step; the analysis functions become pure functions over `List Record`
with exact rational arithmetic in place of Python floats.
-/

/-- One MFT row, as preprocessed by `DataLoader.preprocess_data`.
Optional columns hold `Option` values (pandas `NaN`/`NaT` is `none`).
The timestamp columns are carried as an association list from column
name to an integer timestamp (a present, already-coerced value). -/
structure Record where
  entry_number : Nat
  file_name : String
  parent_path : String
  full_path : String
  extension : Option String
  file_size : Option Nat
  in_use : Bool
  is_directory : Bool
  has_ads : Bool
  is_ads : Bool
  copied : Bool
  si_fn : Bool
  dates : List (String × Int)
deriving DecidableEq

/-- Which columns are present in the loaded dataframe: the code guards
every filter with checks such as `'Extension' in filtered.columns`. -/
structure Schema where
  hasFileName : Bool
  hasParentPath : Bool
  hasFullPath : Bool
  hasExtension : Bool
  hasFileSize : Bool
  hasInUse : Bool
  hasIsDirectory : Bool
  hasHasAds : Bool
  hasIsAds : Bool
  hasCopied : Bool
  hasSiFn : Bool
  cols : List String
deriving DecidableEq

/-- The state of the Search and Filter widgets read by
`apply_advanced_filters` (text boxes, spin boxes, check boxes). -/
structure FilterSettings where
  search_text : String
  filename_pattern : String
  ext_filter : String
  path_filter : String
  size_min : Nat
  size_max : Nat
  size_unit : String
  date_col : String
  date_from : Int
  date_to : Int
  is_directory_cb : Bool
  has_ads_cb : Bool
  is_ads_cb : Bool
  deleted_cb : Bool
  copied_cb : Bool
  si_fn_cb : Bool
deriving DecidableEq

/-- Python `str.strip()`: drop whitespace from both ends. -/
def stripStr (s : String) : String :=
  ⟨((s.data.dropWhile Char.isWhitespace).reverse.dropWhile Char.isWhitespace).reverse⟩

/-- Python `str.lower()` of a string, as a list of characters
(models `re.IGNORECASE` and `.str.lower()` uniformly). -/
def lcStr (s : String) : List Char :=
  s.data.map Char.toLower

/-- Does `hay` start with `needle`?  (Both are explicit character lists.) -/
def startsWithL (needle hay : List Char) : Bool :=
  match needle, hay with
  | [], _ => true
  | _ :: _, [] => false
  | a :: as, b :: bs => a == b && startsWithL as bs

/-- Python `needle in hay` substring test (`.str.contains(..., regex=False)`). -/
def containsSub (needle hay : List Char) : Bool :=
  match hay with
  | [] => startsWithL needle []
  | _ :: t => startsWithL needle hay || containsSub needle t

/-- Python `str.endswith(suffix)`. -/
def endsWithL (suf hay : List Char) : Bool :=
  startsWithL suf.reverse hay.reverse

/-- Token of the regex built by `apply_advanced_filters` from a filename
wildcard pattern via `pattern.replace('*', '.*').replace('?', '.')`:
`*` becomes `.*` (zero-or-more), `?` becomes `.` (any one char), and a
literal `.` already present in the pattern is also the regex `.`
(the code does not escape it).  Other characters match literally. -/
inductive GlobTok where
  | star : GlobTok
  | anyc : GlobTok
  | lit : Char → GlobTok
deriving DecidableEq

/-- Tokenize a wildcard pattern exactly as the code's
`replace('*', '.*').replace('?', '.')` does, for patterns made of
wildcards and characters with no other regex metacharacters.  Literal
characters are lower-cased, modelling `case=False` (`re.IGNORECASE`). -/
def globToTokens (pat : String) : List GlobTok :=
  pat.data.map fun c =>
    if c = '*' then GlobTok.star
    else if c = '?' then GlobTok.anyc
    else if c = '.' then GlobTok.anyc
    else GlobTok.lit c.toLower

/-- `re.match` semantics for the token language: the match is anchored
at the START of the string only — it succeeds as soon as some leading
portion of the string matches the whole token list (a `[]` pattern
accepts any remaining characters).  `star` tries every suffix. -/
def reAccept : List GlobTok → List Char → Bool
  | [], _ => true
  | GlobTok.star :: ps, s => s.tails.any fun t => reAccept ps t
  | GlobTok.anyc :: ps, s =>
    match s with
    | [] => false
    | _ :: t => reAccept ps t
  | GlobTok.lit c :: ps, s =>
    match s with
    | [] => false
    | d :: t => c == d && reAccept ps t

/-- The filename-pattern predicate of `apply_advanced_filters`
(lines 782-792): `FileName.str.match(pattern, case=False)`. -/
def filenamePatternMatch (pat fn : String) : Bool :=
  reAccept (globToTokens pat) (lcStr fn)

/-- pandas `astype(str)` on an optional string column: a missing value
(`NaN`) renders as the string `"nan"`. -/
def astypeStr (o : Option String) : String :=
  o.getD "nan"

/-- Quick-search predicate (lines 769-780): case-insensitive substring
match ORed over the `FileName`, `ParentPath` and `FullPath` columns
that are present (the mask starts all-`False`). -/
def textSearchPred (schema : Schema) (q : List Char) (r : Record) : Bool :=
  (schema.hasFileName && containsSub q (lcStr r.file_name)) ||
  (schema.hasParentPath && containsSub q (lcStr r.parent_path)) ||
  (schema.hasFullPath && containsSub q (lcStr r.full_path))

/-- Extension predicate (lines 794-801): exact case-insensitive match on
`Extension` when that column exists, otherwise a case-insensitive
`endswith('.' + ext)` on `FileName`. -/
def extPred (schema : Schema) (extF : String) (r : Record) : Bool :=
  if schema.hasExtension then lcStr (astypeStr r.extension) == lcStr extF
  else endsWithL (lcStr ("." ++ extF)) (lcStr r.file_name)

/-- `FileSize >= bound` on one row: a missing size (`NaN`) compares
`False` in pandas, so it never satisfies the condition. -/
def sizeGeP (bound : Nat) (r : Record) : Bool :=
  match r.file_size with
  | some s => decide (bound ≤ s)
  | none => false

/-- `FileSize <= bound` on one row; missing size again yields `False`. -/
def sizeLeP (bound : Nat) (r : Record) : Bool :=
  match r.file_size with
  | some s => decide (s ≤ bound)
  | none => false

/-- The `multiplier.get(unit, 1)` lookup of lines 813-817. -/
def unitMult (unit : String) : Nat :=
  if unit = "Bytes" then 1
  else if unit = "KB" then 1024
  else if unit = "MB" then 1024 ^ 2
  else if unit = "GB" then 1024 ^ 3
  else 1

/-- Value of a named timestamp column on one row (after the
`errors='coerce'` conversion); `none` is pandas `NaT`. -/
def dateVal (r : Record) (c : String) : Option Int :=
  (r.dates.find? fun p => p.1 == c).map fun p => p.2

/-- Date-range predicate (lines 827-843): `from <= d <= to`; a `NaT`
value compares `False` on both sides, so it never matches. -/
def datePred (c : String) (dfrom dto : Int) (r : Record) : Bool :=
  match dateVal r c with
  | some d => decide (dfrom ≤ d) && decide (d ≤ dto)
  | none => false

/-- The sequence of guarded filters of
`MFTAnalyzer.apply_advanced_filters` (lines 760-876) in source order:
each pair is (is this filter active on this dataframe?, its row
predicate).  The guards mirror the code's emptiness and
column-presence checks exactly. -/
def filterSteps (fs : FilterSettings) (schema : Schema) :
    List (Bool × (Record → Bool)) :=
  [ (stripStr fs.search_text != "",
      textSearchPred schema (lcStr (stripStr fs.search_text))),
    (stripStr fs.filename_pattern != "" && schema.hasFileName,
      fun r => filenamePatternMatch (stripStr fs.filename_pattern) r.file_name),
    (stripStr fs.ext_filter != "" && (schema.hasExtension || schema.hasFileName),
      extPred schema (stripStr fs.ext_filter)),
    (stripStr fs.path_filter != "" && schema.hasParentPath,
      fun r => containsSub (lcStr (stripStr fs.path_filter)) (lcStr r.parent_path)),
    (schema.hasFileSize && decide (0 < fs.size_min),
      sizeGeP (fs.size_min * unitMult fs.size_unit)),
    (schema.hasFileSize && decide (fs.size_max < 2147483647),
      sizeLeP (fs.size_max * unitMult fs.size_unit)),
    (fs.date_col != "" && schema.cols.contains fs.date_col,
      datePred fs.date_col fs.date_from fs.date_to),
    (fs.is_directory_cb && schema.hasIsDirectory, fun r => r.is_directory),
    (fs.has_ads_cb && schema.hasHasAds, fun r => r.has_ads),
    (fs.is_ads_cb && schema.hasIsAds, fun r => r.is_ads),
    (fs.deleted_cb && schema.hasInUse, fun r => !r.in_use),
    (fs.copied_cb && schema.hasCopied, fun r => r.copied),
    (fs.si_fn_cb && schema.hasSiFn, fun r => r.si_fn) ]

/-- One step of `apply_advanced_filters`: when active, keep the rows
satisfying the predicate (`filtered = filtered[mask]`), else leave the
dataframe unchanged. -/
def applyStep (acc : List Record) (s : Bool × (Record → Bool)) : List Record :=
  if s.1 then acc.filter s.2 else acc

/-- `MFTAnalyzer.apply_advanced_filters`: start from a copy of the full
dataframe and apply every step in source order. -/
def applyAdvancedFilters (fs : FilterSettings) (schema : Schema)
    (df : List Record) : List Record :=
  (filterSteps fs schema).foldl applyStep df

/-- Sequential filtering by a list of predicates. -/
def foldFilter {α : Type} (ps : List (α → Bool)) (l : List α) : List α :=
  ps.foldl (fun acc p => acc.filter p) l

/-- The predicates of the steps whose guard is on, in source order. -/
def activePreds (fs : FilterSettings) (schema : Schema) :
    List (Record → Bool) :=
  ((filterSteps fs schema).filter fun s => s.1).map fun s => s.2

/-- `DataLoader.run` (lines 87-111): the CSV arrives as a sequence of
row chunks (`pd.read_csv(..., chunksize=...)`); the chunks are
concatenated (`pd.concat`) and then `preprocess_data` transforms the
dataframe row-wise (timestamp coercion, derived columns), modelled by
the per-row function `pp`.  No entry-number validation of any kind is
performed anywhere in the loader. -/
def dataLoaderRun (pp : Record → Record) (chunks : List (List Record)) :
    List Record :=
  chunks.flatten.map pp

/-- The progress values emitted by one successful `DataLoader.run`
(lines 87-108): after each chunk, `bytes_read += len(chunk) * 100` and
`min(int(bytes_read / file_size * 100), 99)` is emitted; after the
concat and preprocessing a final `100` is emitted.  Arithmetic is
modelled exactly (the Python float division plus `int()` truncation is
the floor `b * 100 / fsz`). -/
def progressAux (fsz : Nat) : Nat → List Nat → List Nat
  | _, [] => [100]
  | acc, c :: cs =>
    min ((acc + c * 100) * 100 / fsz) 99 :: progressAux fsz (acc + c * 100) cs

/-- All progress values of a load whose chunks have lengths `chunkLens`,
starting from `bytes_read = 0`. -/
def progressSeq (fsz : Nat) (chunkLens : List Nat) : List Nat :=
  progressAux fsz 0 chunkLens

/-- Deletion-analysis figures of `MFTAnalyzer.analyze_attributes`
(lines 1303-1315): `deleted_count = (~df['InUse']).sum()`, the deleted
percentage is `deleted_count / total * 100`, and the active row reports
`total - deleted_count` and `100 - deleted_percentage`. -/
structure DeletionStats where
  deletedCount : Nat
  deletedPct : ℚ
  activeCount : Nat
  activePct : ℚ
deriving DecidableEq

def deletionAnalysis (df : List Record) : DeletionStats :=
  { deletedCount := df.countP fun r => !r.in_use
    deletedPct := ((df.countP fun r => !r.in_use : ℚ) / (df.length : ℚ)) * 100
    activeCount := df.length - df.countP fun r => !r.in_use
    activePct := 100 - ((df.countP fun r => !r.in_use : ℚ) / (df.length : ℚ)) * 100 }

/-- `takeWhile` of non-dot characters: the greedy `[^.]+` capture. -/
def takeNonDot (l : List Char) : List Char :=
  l.takeWhile fun c => c != '.'

/-- First match of the regex `\.([^.]+)` in a filename, as used by
`MFTAnalyzer.analyze_file_types` (line 1211,
`str.extract(r'\.([^.]+)')`): scan left to right for a `.` followed by
at least one non-dot character and capture the maximal run of non-dot
characters after it.  Note this is the FIRST dot of the name, and the
captured text is not lower-cased. -/
def extFirstAux : List Char → Option (List Char)
  | [] => none
  | c :: rest =>
    if c == '.' && (match rest with | d :: _ => d != '.' | [] => false)
    then some (takeNonDot rest)
    else extFirstAux rest

def extFirst (fn : String) : Option String :=
  (extFirstAux fn.data).map fun l => ⟨l⟩

/-- Modelled from the spec: the spec's own definition of `extension` —
"lower-cased suffix after the last `.` in `file_name`, or absent" —
kept only to compare against the code's `extFirst`. -/
def extSpecLast (fn : String) : Option String :=
  if fn.data.contains '.' then
    some ⟨((fn.data.reverse.takeWhile fun c => c != '.').reverse).map Char.toLower⟩
  else none

/-- The bucket a file falls into: the extracted extension, with
`fillna('No Extension')` for rows where the regex found nothing. -/
def extBucket (fn : String) : String :=
  (extFirst fn).getD "No Extension"

/-- Count of a bucket in the `value_counts()` of line 1215. -/
def typeCount (fns : List String) (b : String) : Nat :=
  fns.countP fun fn => extBucket fn == b

/-- Percentage of a bucket (line 1222): `count / total_files * 100`
where `total_files = len(self.df)`. -/
def typePct (fns : List String) (b : String) : ℚ :=
  ((typeCount fns b : ℚ) / (fns.length : ℚ)) * 100

def listMax? {α : Type} [Max α] : List α → Option α
  | [] => none
  | x :: xs =>
    match listMax? xs with
    | none => some x
    | some y => some (max x y)

def listMin? {α : Type} [Min α] : List α → Option α
  | [] => none
  | x :: xs =>
    match listMin? xs with
    | none => some x
    | some y => some (min x y)

def insertNat (x : Nat) : List Nat → List Nat
  | [] => [x]
  | y :: ys => if x ≤ y then x :: y :: ys else y :: insertNat x ys

def sortNat : List Nat → List Nat
  | [] => []
  | x :: xs => insertNat x (sortNat xs)

/-- pandas `Series.median` with linear interpolation: middle element of
the sorted values, or the mean of the two middle elements; `none` on an
empty series (`nan`). -/
def medianQ (l : List Nat) : Option ℚ :=
  if sortNat l = [] then none
  else if (sortNat l).length % 2 = 1 then
    some (((sortNat l).getD ((sortNat l).length / 2) 0 : Nat) : ℚ)
  else
    some ((((sortNat l).getD ((sortNat l).length / 2 - 1) 0
      + (sortNat l).getD ((sortNat l).length / 2) 0 : Nat) : ℚ) / 2)

/-- Figures reported by `MFTAnalyzer.analyze_file_sizes`
(lines 1231-1251): `sizes = self.df['FileSize'].dropna()` — every row
with a present `FileSize`, directories included — then count, sum,
mean, median, max, min; the empty series yields sum `0` and undefined
(`nan` — here `none`) mean/median/max/min rather than an error. -/
structure SizeStats where
  count : Nat
  total : Nat
  mean : Option ℚ
  median : Option ℚ
  largest : Option Nat
  smallest : Option Nat
deriving DecidableEq

def analyzeFileSizes (df : List Record) : SizeStats :=
  { count := (df.filterMap fun r => r.file_size).length
    total := (df.filterMap fun r => r.file_size).sum
    mean :=
      if (df.filterMap fun r => r.file_size).length = 0 then none
      else some (((df.filterMap fun r => r.file_size).sum : ℚ)
        / ((df.filterMap fun r => r.file_size).length : ℚ))
    median := medianQ (df.filterMap fun r => r.file_size)
    largest := listMax? (df.filterMap fun r => r.file_size)
    smallest := listMin? (df.filterMap fun r => r.file_size) }

/-- `pd.to_datetime(col, errors='coerce')` over one column
(`DataLoader.preprocess_data`, lines 113-123, and
`analyze_timestamps`, line 1265): each cell is parsed by `parse`; a
missing cell or an unparseable value becomes `none` (`NaT`) and the
conversion never fails. -/
def toDatetimeCoerce (parse : String → Option Int)
    (col : List (Option String)) : List (Option Int) :=
  col.map fun cell => cell.bind parse

/-- Timestamp summary of `MFTAnalyzer.analyze_timestamps`
(lines 1263-1274): `dropna()` first, so only present values enter the
count and the min/max date range. -/
structure TsStats where
  validCount : Nat
  earliest : Option Int
  latest : Option Int
deriving DecidableEq

def tsStats (col : List (Option Int)) : TsStats :=
  { validCount := (col.filterMap id).length
    earliest := listMin? (col.filterMap id)
    latest := listMax? (col.filterMap id) }

/-- Data selection of `MFTAnalyzer.export_data_func` (lines 1349-1357):
the `Deleted Files Only` branch applies only when the `InUse` column
exists; every unmatched case falls through to the full dataframe. -/
def selectExportData (dataType : String) (schema : Schema)
    (df filteredDf : List Record) : List Record :=
  if dataType = "All Data" then df
  else if dataType = "Filtered Data" then filteredDf
  else if dataType = "Deleted Files Only" ∧ schema.hasInUse = true then
    df.filter fun r => !r.in_use
  else df

/-- A row with every optional column absent and all flags at their
active-file defaults. -/
def baseRecord : Record :=
  { entry_number := 0, file_name := "", parent_path := "", full_path := "",
    extension := none, file_size := none, in_use := true,
    is_directory := false, has_ads := false, is_ads := false,
    copied := false, si_fn := false, dates := [] }

def recDeleted : Record :=
  { baseRecord with in_use := false }

/-- 100 rows of which 37 are deleted (`InUse = False`). -/
def sample100 : List Record :=
  List.replicate 37 recDeleted ++ List.replicate 63 baseRecord

/-- A directory row that nevertheless carries a `FileSize` value. -/
def dirRecord : Record :=
  { baseRecord with
    file_name := "dir"
    is_directory := true
    file_size := some 10 }

def dupRow1 : Record :=
  { baseRecord with entry_number := 5, file_name := "a.txt" }

def dupRow2 : Record :=
  { baseRecord with entry_number := 5, file_name := "b.txt" }

def exampleFiles : List String :=
  ["a.txt", "b.txt", "c.log", "d"]

/-- Widget state with every filter at its default (inactive) value. -/
def fsDefault : FilterSettings :=
  { search_text := "", filename_pattern := "", ext_filter := "",
    path_filter := "", size_min := 0, size_max := 2147483647,
    size_unit := "Bytes", date_col := "", date_from := 0, date_to := 0,
    is_directory_cb := false, has_ads_cb := false, is_ads_cb := false,
    deleted_cb := false, copied_cb := false, si_fn_cb := false }

def fsSizeMin : FilterSettings :=
  { fsDefault with size_min := 1 }

def schemaFull : Schema :=
  { hasFileName := true, hasParentPath := true, hasFullPath := true,
    hasExtension := true, hasFileSize := true, hasInUse := true,
    hasIsDirectory := true, hasHasAds := true, hasIsAds := true,
    hasCopied := true, hasSiFn := true, cols := ["Created0x10"] }

def schemaNoInUse : Schema :=
  { schemaFull with hasInUse := false }

def predInUse : Record → Bool := fun r => r.in_use

def predDir : Record → Bool := fun r => r.is_directory

def sampleDf : List Record := [baseRecord, dirRecord]

/-- Lexicographic comparison of character lists (string ordering used
for tie-breaking in the ranked table). -/
def lexLE : List Char → List Char → Bool
  | [], _ => true
  | _ :: _, [] => false
  | a :: as, b :: bs => if a = b then lexLE as bs else decide (a < b)

/-- Row order of the ranked distribution table returned by
`value_counts()` (line 1215): larger counts first.  pandas guarantees
the descending count order but does not specify the relative order of
rows with equal counts (hash-table key order followed by an unstable
sort); the model resolves equal counts by extension name ascending,
and every ranking theorem below except the concrete example table is
independent of that resolution. -/
def rankLE (a b : String × Nat) : Bool :=
  decide (b.2 < a.2) || (a.2 == b.2 && lexLE a.1.data b.1.data)

/-- Insertion sort by `rankLE`. -/
def insertRanked (x : String × Nat) :
    List (String × Nat) → List (String × Nat)
  | [] => [x]
  | y :: ys => if rankLE x y then x :: y :: ys else y :: insertRanked x ys

def sortRanked : List (String × Nat) → List (String × Nat)
  | [] => []
  | x :: xs => insertRanked x (sortRanked xs)

/-- Count of one bucket value inside the extension series. -/
def bucketCount (series : List String) (b : String) : Nat :=
  series.countP fun x => x == b

/-- `extensions.value_counts().head(20)` (line 1215): one row per
distinct bucket of the series with its count, ranked by `rankLE` and
truncated to the first 20 rows. -/
def valueCountsTop (series : List String) : List (String × Nat) :=
  (sortRanked (series.dedup.map fun b => (b, bucketCount series b))).take 20

/-- The extension series of `analyze_file_types` (lines 1208-1211):
the `Extension` column with `fillna('No Extension')` when that column
exists, otherwise the first-dot regex capture from `FileName`. -/
def extSeries (schema : Schema) (df : List Record) : List String :=
  if schema.hasExtension then df.map fun r => r.extension.getD "No Extension"
  else df.map fun r => extBucket r.file_name

/-- The ranked table over plain filenames (the `FileName` branch of
`analyze_file_types`). -/
def fileTypeTable (fns : List String) : List (String × Nat) :=
  valueCountsTop (fns.map extBucket)

def schemaNoExt : Schema :=
  { schemaFull with hasExtension := false }

theorem countP_in_use (l : List Record) :
    (l.countP fun r => !r.in_use) + l.countP (fun r => r.in_use) = l.length := by
  induction l with
  | nil => rfl
  | cons x xs ih =>
    cases hx : x.in_use <;> simp [List.countP_cons, hx] <;> omega

theorem extFirstAux_of_no_dot :
    ∀ l : List Char, '.' ∉ l → extFirstAux l = none := by
  intro l hl
  induction l with
  | nil => rfl
  | cons c rest ih =>
    rw [List.mem_cons, not_or] at hl
    have hc : (c == '.') = false := by
      simp only [beq_eq_false_iff_ne]
      exact fun h => hl.1 h.symm
    simp [extFirstAux, hc, ih hl.2]

theorem sizeGe_step_mem (fs : FilterSettings) (schema : Schema) :
    (schema.hasFileSize && decide (0 < fs.size_min),
      sizeGeP (fs.size_min * unitMult fs.size_unit)) ∈ filterSteps fs schema := by
  unfold filterSteps
  exact List.mem_cons_of_mem _ (List.mem_cons_of_mem _ (List.mem_cons_of_mem _
    (List.mem_cons_of_mem _ (List.mem_cons_self _ _))))

theorem sizeLe_step_mem (fs : FilterSettings) (schema : Schema) :
    (schema.hasFileSize && decide (fs.size_max < 2147483647),
      sizeLeP (fs.size_max * unitMult fs.size_unit)) ∈ filterSteps fs schema := by
  unfold filterSteps
  exact List.mem_cons_of_mem _ (List.mem_cons_of_mem _ (List.mem_cons_of_mem _
    (List.mem_cons_of_mem _ (List.mem_cons_of_mem _ (List.mem_cons_self _ _)))))

theorem progressAux_bounds (fsz : Nat) :
    ∀ (cs : List Nat) (acc : Nat),
      List.Chain' (· ≤ ·) (progressAux fsz acc cs) ∧
      ∀ v ∈ progressAux fsz acc cs, min (acc * 100 / fsz) 99 ≤ v ∧ v ≤ 100 := by
  intro cs
  induction cs with
  | nil =>
    intro acc
    refine ⟨by simp [progressAux], ?_⟩
    intro v hv
    simp only [progressAux, List.mem_singleton] at hv
    subst hv
    exact ⟨le_trans (min_le_right _ _) (by norm_num), le_refl _⟩
  | cons c cs ih =>
    intro acc
    obtain ⟨ihChain, ihBound⟩ := ih (acc + c * 100)
    have hstep : acc * 100 / fsz ≤ (acc + c * 100) * 100 / fsz :=
      Nat.div_le_div_right (Nat.mul_le_mul_right _ (Nat.le_add_right _ _))
    have hmin : min (acc * 100 / fsz) 99
        ≤ min ((acc + c * 100) * 100 / fsz) 99 :=
      min_le_min hstep (le_refl 99)
    constructor
    · rw [show progressAux fsz acc (c :: cs)
        = min ((acc + c * 100) * 100 / fsz) 99
          :: progressAux fsz (acc + c * 100) cs from rfl]
      rw [List.chain'_cons']
      refine ⟨?_, ihChain⟩
      intro y hy
      exact (ihBound y (List.mem_of_mem_head? hy)).1
    · intro v hv
      rw [show progressAux fsz acc (c :: cs)
        = min ((acc + c * 100) * 100 / fsz) 99
          :: progressAux fsz (acc + c * 100) cs from rfl] at hv
      rcases List.mem_cons.mp hv with h | h
      · subst h
        exact ⟨hmin, le_trans (min_le_right _ _) (by norm_num)⟩
      · exact ⟨le_trans hmin (ihBound v h).1, (ihBound v h).2⟩


theorem foldl_applyStep (steps : List (Bool × (Record → Bool)))
    (l : List Record) :
    steps.foldl applyStep l
      = foldFilter ((steps.filter fun s => s.1).map fun s => s.2) l := by
  induction steps generalizing l with
  | nil => rfl
  | cons s ss ih =>
    cases s with
    | mk b p =>
      cases b with
      | false => simpa [applyStep, List.filter_cons, foldFilter] using ih l
      | true => simpa [applyStep, List.filter_cons, foldFilter] using ih (l.filter p)

theorem applyAdvancedFilters_eq (fs : FilterSettings) (schema : Schema)
    (df : List Record) :
    applyAdvancedFilters fs schema df = foldFilter (activePreds fs schema) df :=
  foldl_applyStep (filterSteps fs schema) df

theorem mem_foldFilter_iff {α : Type} (r : α) :
    ∀ (ps : List (α → Bool)) (l : List α),
      r ∈ foldFilter ps l ↔ (r ∈ l ∧ ∀ p ∈ ps, p r = true) := by
  intro ps
  induction ps with
  | nil => intro l; simp [foldFilter]
  | cons p ps ih =>
    intro l
    rw [show foldFilter (p :: ps) l = foldFilter ps (l.filter p) from rfl,
      ih (l.filter p), List.mem_filter, List.forall_mem_cons]
    tauto

theorem filter_swap {α : Type} (p q : α → Bool) (l : List α) :
    (l.filter p).filter q = (l.filter q).filter p := by
  induction l with
  | nil => rfl
  | cons x xs ih =>
    cases hp : p x <;> cases hq : q x <;>
      simp [List.filter_cons, hp, hq, ih]

theorem foldFilter_perm {α : Type} {ps qs : List (α → Bool)}
    (h : List.Perm ps qs) :
    ∀ l : List α, foldFilter ps l = foldFilter qs l := by
  induction h with
  | nil => intro l; rfl
  | cons p _ ih => intro l; exact ih (l.filter p)
  | swap p q rest =>
    intro l
    show foldFilter rest ((l.filter q).filter p)
      = foldFilter rest ((l.filter p).filter q)
    rw [filter_swap]
  | trans _ _ ih₁ ih₂ => intro l; rw [ih₁, ih₂]

theorem foldFilter_subset {α : Type} (r : α) (ps : List (α → Bool))
    (l : List α) (h : r ∈ foldFilter ps l) : r ∈ l :=
  ((mem_foldFilter_iff r ps l).mp h).1

theorem reAccept_append :
    ∀ (ps : List GlobTok) (s t : List Char),
      reAccept ps s = true → reAccept ps (s ++ t) = true := by
  intro ps
  induction ps with
  | nil => intro s t _; rfl
  | cons tok ps ih =>
    intro s t h
    cases tok with
    | star =>
      simp only [reAccept, List.any_eq_true] at h ⊢
      obtain ⟨u, hu, hacc⟩ := h
      rw [List.mem_tails] at hu
      obtain ⟨w, hw⟩ := hu
      refine ⟨u ++ t, ?_, ih u t hacc⟩
      rw [List.mem_tails]
      exact ⟨w, by rw [← List.append_assoc, hw]⟩
    | anyc =>
      cases s with
      | nil => simp [reAccept] at h
      | cons c s' =>
        simp only [List.cons_append]
        simp only [reAccept] at h ⊢
        exact ih s' t h
    | lit ch =>
      cases s with
      | nil => simp [reAccept] at h
      | cons c s' =>
        simp only [List.cons_append]
        simp only [reAccept, Bool.and_eq_true] at h ⊢
        exact ⟨h.1, ih s' t h.2⟩

theorem lexLE_total : ∀ x y : List Char, lexLE x y = false → lexLE y x = true := by
  intro x
  induction x with
  | nil => intro y h; simp [lexLE] at h
  | cons a as ih =>
    intro y h
    cases y with
    | nil => rfl
    | cons b bs =>
      simp only [lexLE] at h ⊢
      by_cases hab : a = b
      · subst hab
        rw [if_pos rfl] at h ⊢
        exact ih bs h
      · rw [if_neg hab] at h
        rw [if_neg fun hba => hab hba.symm]
        simp only [decide_eq_false_iff_not] at h
        simp only [decide_eq_true_eq]
        exact lt_of_le_of_ne (le_of_not_lt h) fun hba => hab hba.symm

theorem rankLE_total (a b : String × Nat) (h : rankLE a b = false) :
    rankLE b a = true := by
  unfold rankLE at h ⊢
  rcases Nat.lt_trichotomy a.2 b.2 with hlt | heq | hgt
  · simp [hlt]
  · have h2 : lexLE a.1.data b.1.data = false := by simpa [heq] using h
    simp [heq, lexLE_total _ _ h2]
  · simp [hgt] at h

theorem rankLE_count_ge {a b : String × Nat} (h : rankLE a b = true) :
    b.2 ≤ a.2 := by
  unfold rankLE at h
  rw [Bool.or_eq_true] at h
  rcases h with h | h
  · exact Nat.le_of_lt (of_decide_eq_true h)
  · rw [Bool.and_eq_true] at h
    exact Nat.le_of_eq (eq_of_beq h.1).symm

theorem chain'_insertRanked (x : String × Nat) :
    ∀ l : List (String × Nat),
      List.Chain' (fun a b => rankLE a b = true) l →
      List.Chain' (fun a b => rankLE a b = true) (insertRanked x l) := by
  intro l
  induction l with
  | nil => intro _; simp [insertRanked]
  | cons y ys ih =>
    intro h
    rw [List.chain'_cons'] at h
    obtain ⟨hy, hys⟩ := h
    cases hxy : rankLE x y with
    | true =>
      rw [show insertRanked x (y :: ys) = x :: y :: ys from by
        simp [insertRanked, hxy]]
      rw [List.chain'_cons']
      refine ⟨?_, List.chain'_cons'.mpr ⟨hy, hys⟩⟩
      intro z hz
      simp only [List.head?_cons, Option.mem_def, Option.some.injEq] at hz
      subst hz
      exact hxy
    | false =>
      rw [show insertRanked x (y :: ys) = y :: insertRanked x ys from by
        simp [insertRanked, hxy]]
      rw [List.chain'_cons']
      refine ⟨?_, ih hys⟩
      intro z hz
      cases ys with
      | nil =>
        simp only [insertRanked, List.head?_cons, Option.mem_def,
          Option.some.injEq] at hz
        subst hz
        exact rankLE_total x y hxy
      | cons w ws =>
        cases hxw : rankLE x w with
        | true =>
          rw [show insertRanked x (w :: ws) = x :: w :: ws from by
            simp [insertRanked, hxw]] at hz
          simp only [List.head?_cons, Option.mem_def, Option.some.injEq] at hz
          subst hz
          exact rankLE_total x y hxy
        | false =>
          rw [show insertRanked x (w :: ws) = w :: insertRanked x ws from by
            simp [insertRanked, hxw]] at hz
          simp only [List.head?_cons, Option.mem_def, Option.some.injEq] at hz
          subst hz
          exact hy w (by simp)

theorem chain'_sortRanked :
    ∀ l : List (String × Nat),
      List.Chain' (fun a b => rankLE a b = true) (sortRanked l) := by
  intro l
  induction l with
  | nil => simp [sortRanked]
  | cons x xs ih => exact chain'_insertRanked x (sortRanked xs) ih

theorem mem_insertRanked {y x : String × Nat} :
    ∀ l : List (String × Nat), y ∈ insertRanked x l → y = x ∨ y ∈ l := by
  intro l
  induction l with
  | nil =>
    intro h
    simp only [insertRanked, List.mem_singleton] at h
    exact Or.inl h
  | cons z zs ih =>
    intro h
    cases hxz : rankLE x z with
    | true =>
      rw [show insertRanked x (z :: zs) = x :: z :: zs from by
        simp [insertRanked, hxz]] at h
      rcases List.mem_cons.mp h with h | h
      · exact Or.inl h
      · exact Or.inr h
    | false =>
      rw [show insertRanked x (z :: zs) = z :: insertRanked x zs from by
        simp [insertRanked, hxz]] at h
      rcases List.mem_cons.mp h with h | h
      · exact Or.inr (by simp [h])
      · rcases ih h with h | h
        · exact Or.inl h
        · exact Or.inr (List.mem_cons_of_mem _ h)

theorem mem_sortRanked {y : String × Nat} :
    ∀ l : List (String × Nat), y ∈ sortRanked l → y ∈ l := by
  intro l
  induction l with
  | nil => intro h; simp [sortRanked] at h
  | cons x xs ih =>
    intro h
    rcases mem_insertRanked (sortRanked xs) h with h | h
    · simp [h]
    · exact List.mem_cons_of_mem _ (ih h)

theorem valueCountsTop_sorted (series : List String) :
    List.Chain' (fun a b : String × Nat => b.2 ≤ a.2)
      (valueCountsTop series) := by
  unfold valueCountsTop
  have h := chain'_sortRanked (series.dedup.map fun b => (b, bucketCount series b))
  have h2 := List.Chain'.imp (fun a b hab => rankLE_count_ge hab) h
  exact h2.prefix (List.take_prefix _ _)

theorem valueCountsTop_len (series : List String) :
    (valueCountsTop series).length ≤ 20 :=
  List.length_take_le _ _

theorem valueCountsTop_counts (series : List String) (p : String × Nat)
    (hp : p ∈ valueCountsTop series) :
    p.2 = bucketCount series p.1 ∧ p.1 ∈ series.dedup := by
  have h1 : p ∈ sortRanked (series.dedup.map fun b => (b, bucketCount series b)) :=
    List.mem_of_mem_take hp
  have h2 := mem_sortRanked _ h1
  rw [List.mem_map] at h2
  obtain ⟨b, hb, hpb⟩ := h2
  rw [← hpb]
  exact ⟨rfl, hb⟩

theorem bucketCount_map_extBucket (fns : List String) (b : String) :
    bucketCount (fns.map extBucket) b = typeCount fns b := by
  unfold bucketCount typeCount
  rw [List.countP_map]
  rfl

/-- C1 counterexample: the claim says glob matching is anchored
whole-string so that `*.txt` does not match `"a.txt.bak"`, but the code
uses `str.match` (start-anchored only) and the pattern does match. -/
theorem C1_counterexample : filenamePatternMatch "*.txt" "a.txt.bak" = true := by
  decide

/-- C1 (amended): the filename-pattern filter matches the glob against
`file_name` only, case-insensitively, with `*` as zero-or-more
characters and `?` as exactly one, but the match is anchored only at
the start of the filename: `*.txt` matches `"a.txt"`, `"archive.TXT"`,
and also `"a.txt.bak"`, and in general extending a matched string on
the right can never destroy a match. -/
theorem C1_glob_start_anchored :
    filenamePatternMatch "*.txt" "a.txt" = true ∧
    filenamePatternMatch "*.txt" "archive.TXT" = true ∧
    filenamePatternMatch "*.txt" "a.txt.bak" = true ∧
    (∀ (pat : String) (s t : List Char),
      reAccept (globToTokens pat) s = true →
      reAccept (globToTokens pat) (s ++ t) = true) :=
  ⟨by decide, by decide, by decide,
    fun pat s t h => reAccept_append (globToTokens pat) s t h⟩

/-- C1 witness: the general start-anchoring clause applied at `*.txt`,
`"a.txt"` and suffix `".bak"`. -/
theorem C1_witness :
    reAccept (globToTokens "*.txt") "a.txt".data = true ∧
    reAccept (globToTokens "*.txt") ("a.txt".data ++ ".bak".data) = true :=
  ⟨by decide,
    C1_glob_start_anchored.2.2.2 "*.txt" "a.txt".data ".bak".data (by decide)⟩

/-- C2: whenever the size filter is active (a positive minimum or a
maximum below the spin-box ceiling 2147483647) and the `FileSize`
column exists, a record with an absent `file_size` is excluded from the
result of `apply_advanced_filters` — missing sizes are never treated as
zero. -/
theorem C2_size_absent_excluded :
    ∀ (fs : FilterSettings) (schema : Schema) (df : List Record) (r : Record),
      schema.hasFileSize = true →
      (0 < fs.size_min ∨ fs.size_max < 2147483647) →
      r.file_size = none →
      r ∉ applyAdvancedFilters fs schema df := by
  intro fs schema df r hcol hactive hnone hmem
  rw [applyAdvancedFilters_eq] at hmem
  have hall := ((mem_foldFilter_iff r _ df).mp hmem).2
  cases hactive with
  | inl h =>
    have hflag : (schema.hasFileSize && decide (0 < fs.size_min)) = true := by
      simp [hcol, h]
    have hp : sizeGeP (fs.size_min * unitMult fs.size_unit)
        ∈ activePreds fs schema :=
      List.mem_map_of_mem _ (List.mem_filter.mpr ⟨sizeGe_step_mem fs schema, hflag⟩)
    have hcontra := hall _ hp
    simp [sizeGeP, hnone] at hcontra
  | inr h =>
    have hflag : (schema.hasFileSize && decide (fs.size_max < 2147483647)) = true := by
      simp [hcol, h]
    have hp : sizeLeP (fs.size_max * unitMult fs.size_unit)
        ∈ activePreds fs schema :=
      List.mem_map_of_mem _ (List.mem_filter.mpr ⟨sizeLe_step_mem fs schema, hflag⟩)
    have hcontra := hall _ hp
    simp [sizeLeP, hnone] at hcontra

/-- C2 witness: with minimum size 1 active, the size-less `baseRecord`
is filtered out of its own singleton dataframe. -/
theorem C2_witness :
    baseRecord ∉ applyAdvancedFilters fsSizeMin schemaFull [baseRecord] :=
  C2_size_absent_excluded fsSizeMin schemaFull [baseRecord] baseRecord
    rfl (Or.inl (by decide)) rfl

/-- C3 counterexample: two rows sharing entry number 5 load without any
error — the result holds both rows and `count()` is 2, where the claim
demands a `DuplicateEntry` failure. -/
theorem C3_counterexample :
    dupRow1.entry_number = dupRow2.entry_number ∧
    dataLoaderRun id [[dupRow1, dupRow2]] = [dupRow1, dupRow2] ∧
    (dataLoaderRun id [[dupRow1, dupRow2]]).length = 2 := by
  decide

/-- C3 (amended): loading N rows always succeeds with `count() == N`
and preserves insertion order, whether or not entry numbers repeat:
`DataLoader.run` performs no entry-number uniqueness validation and has
no `DuplicateEntry` error path. -/
theorem C3_load_count :
    ∀ (pp : Record → Record) (chunks : List (List Record)),
      (dataLoaderRun pp chunks).length = chunks.flatten.length ∧
      dataLoaderRun id chunks = chunks.flatten :=
  fun _ _ => ⟨List.length_map _ _, List.map_id _⟩

/-- C4: `apply_advanced_filters` is the sequential AND-composition of
its active predicates: it equals folding `List.filter` over
`activePreds`; a record is in the result iff it is in the dataframe and
satisfies every active predicate; the result is a subset of the full
set; zero active predicates yield the full set unchanged; and folding
any permutation of a predicate list gives an identical result. -/
theorem C4_filter_composition :
    ∀ (fs : FilterSettings) (schema : Schema) (df : List Record),
      applyAdvancedFilters fs schema df = foldFilter (activePreds fs schema) df ∧
      (∀ r, r ∈ applyAdvancedFilters fs schema df ↔
        (r ∈ df ∧ ∀ p ∈ activePreds fs schema, p r = true)) ∧
      (∀ r, r ∈ applyAdvancedFilters fs schema df → r ∈ df) ∧
      (activePreds fs schema = [] → applyAdvancedFilters fs schema df = df) ∧
      (∀ ps qs : List (Record → Bool), List.Perm ps qs →
        foldFilter ps df = foldFilter qs df) := by
  intro fs schema df
  refine ⟨applyAdvancedFilters_eq fs schema df, ?_, ?_, ?_, ?_⟩
  · intro r
    rw [applyAdvancedFilters_eq]
    exact mem_foldFilter_iff r _ df
  · intro r h
    rw [applyAdvancedFilters_eq] at h
    exact foldFilter_subset r _ df h
  · intro h
    rw [applyAdvancedFilters_eq, h]
    rfl
  · intro ps qs hperm
    exact foldFilter_perm hperm df

/-- C4 witness: with every widget at its default no predicate is
active and the dataframe passes through unchanged, and swapping two
concrete predicates leaves the filtered result identical. -/
theorem C4_witness :
    applyAdvancedFilters fsDefault schemaFull sampleDf = sampleDf ∧
    foldFilter [predInUse, predDir] sampleDf
      = foldFilter [predDir, predInUse] sampleDf :=
  ⟨(C4_filter_composition fsDefault schemaFull sampleDf).2.2.2.1 rfl,
    (C4_filter_composition fsDefault schemaFull sampleDf).2.2.2.2
      [predInUse, predDir] [predDir, predInUse]
      (List.Perm.swap predDir predInUse [])⟩

/-- C5: deletion analysis reports the count of `InUse = False` rows
with percentage `deleted/total*100`, the complementary count of
`InUse = True` rows with percentage `100 - deleted_percentage`, the
two counts partition the set, the two percentages sum to exactly 100,
the active percentage equals `active/total*100` whenever the set is
non-empty, and 37 deleted rows out of 100 report exactly 37 and 63. -/
theorem C5_deletion_analysis :
    (∀ df : List Record,
      (deletionAnalysis df).deletedCount + (deletionAnalysis df).activeCount
        = df.length ∧
      (deletionAnalysis df).activeCount = df.countP (fun r => r.in_use) ∧
      (deletionAnalysis df).deletedPct + (deletionAnalysis df).activePct = 100 ∧
      (0 < df.length →
        (deletionAnalysis df).activePct
          = ((deletionAnalysis df).activeCount : ℚ) / (df.length : ℚ) * 100)) ∧
    (deletionAnalysis sample100).deletedCount = 37 ∧
    (deletionAnalysis sample100).deletedPct = 37 ∧
    (deletionAnalysis sample100).activeCount = 63 ∧
    (deletionAnalysis sample100).activePct = 63 := by
  constructor
  · intro df
    have hsum := countP_in_use df
    have hle : (df.countP fun r => !r.in_use) ≤ df.length := by omega
    refine ⟨?_, ?_, ?_, ?_⟩
    · show (df.countP fun r => !r.in_use)
        + (df.length - df.countP fun r => !r.in_use) = df.length
      omega
    · show df.length - (df.countP fun r => !r.in_use)
        = df.countP fun r => r.in_use
      omega
    · show ((df.countP fun r => !r.in_use : ℚ) / (df.length : ℚ)) * 100
        + (100 - ((df.countP fun r => !r.in_use : ℚ) / (df.length : ℚ)) * 100)
        = 100
      ring
    · intro hpos
      have hq : (df.length : ℚ) ≠ 0 := Nat.cast_ne_zero.mpr hpos.ne'
      show 100 - ((df.countP fun r => !r.in_use : ℚ) / (df.length : ℚ)) * 100
        = (((df.length - df.countP fun r => !r.in_use : Nat)) : ℚ)
          / (df.length : ℚ) * 100
      rw [Nat.cast_sub hle]
      field_simp
      ring
  · have h1 : (sample100.countP fun r => !r.in_use) = 37 := by decide
    have h2 : sample100.length = 100 := by decide
    refine ⟨by decide, ?_, by decide, ?_⟩
    · show ((sample100.countP fun r => !r.in_use : ℚ)
        / (sample100.length : ℚ)) * 100 = 37
      rw [h1, h2]
      norm_num
    · show 100 - ((sample100.countP fun r => !r.in_use : ℚ)
        / (sample100.length : ℚ)) * 100 = 63
      rw [h1, h2]
      norm_num

/-- C5 witness: the non-empty-set clause applied to the 100-row
sample. -/
theorem C5_witness :
    0 < sample100.length ∧
    (deletionAnalysis sample100).activePct
      = ((deletionAnalysis sample100).activeCount : ℚ)
        / (sample100.length : ℚ) * 100 :=
  ⟨by decide, (C5_deletion_analysis.1 sample100).2.2.2 (by decide)⟩

/-- C6 counterexample: the claim takes the extension to be the
lower-cased suffix after the LAST dot (`"gz"` for `"a.TAR.gz"`), but
the code's regex `\.([^.]+)` captures after the FIRST dot without
lower-casing: the file is bucketed under `"TAR"` and the `"gz"` bucket
stays empty. -/
theorem C6_counterexample :
    extBucket "a.TAR.gz" = "TAR" ∧
    extSpecLast "a.TAR.gz" = some "gz" ∧
    typeCount ["a.TAR.gz"] "TAR" = 1 ∧
    typeCount ["a.TAR.gz"] "gz" = 0 := by
  decide

/-- C6 (amended): when the dataset has an `Extension` column the
series is that column with `fillna('No Extension')`; otherwise each
record is bucketed by the run of non-dot characters captured after the
FIRST dot of `file_name` (case preserved), files with no such match
grouped into `"No Extension"`.  The table reports each bucket's count
and percentage `count/total*100` over all records, ranked descending
by count with ties broken by extension name ascending, truncated to
the top 20.  Over `["a.txt","b.txt","c.log","d"]` the counts and
percentages are txt: 2 (50%), log: 1 (25%), No Extension: 1 (25%), and
the ranked table is txt, then "No Extension", then log (name order
puts `"No Extension"` before `"log"`). -/
theorem C6_type_distribution :
    typeCount exampleFiles "txt" = 2 ∧ typePct exampleFiles "txt" = 50 ∧
    typeCount exampleFiles "log" = 1 ∧ typePct exampleFiles "log" = 25 ∧
    typeCount exampleFiles "No Extension" = 1 ∧
    typePct exampleFiles "No Extension" = 25 ∧
    fileTypeTable exampleFiles
      = [("txt", 2), ("No Extension", 1), ("log", 1)] ∧
    (∀ fns : List String,
      List.Chain' (fun a b : String × Nat => b.2 ≤ a.2) (fileTypeTable fns)) ∧
    (∀ fns : List String, (fileTypeTable fns).length ≤ 20) ∧
    (∀ (fns : List String) (p : String × Nat),
      p ∈ fileTypeTable fns → p.2 = typeCount fns p.1) ∧
    (∀ (fns : List String) (b : String), typeCount fns b ≤ fns.length) ∧
    (∀ fn : String, '.' ∉ fn.data → extBucket fn = "No Extension") ∧
    (∀ (schema : Schema) (df : List Record), schema.hasExtension = true →
      extSeries schema df = df.map fun r => r.extension.getD "No Extension") ∧
    (∀ (schema : Schema) (df : List Record), schema.hasExtension = false →
      extSeries schema df = df.map fun r => extBucket r.file_name) := by
  have hlen : exampleFiles.length = 4 := by decide
  refine ⟨by decide, ?_, by decide, ?_, by decide, ?_, by decide,
    ?_, ?_, ?_, ?_, ?_, ?_, ?_⟩
  · show ((typeCount exampleFiles "txt" : ℚ)
      / (exampleFiles.length : ℚ)) * 100 = 50
    rw [show typeCount exampleFiles "txt" = 2 from by decide, hlen]
    norm_num
  · show ((typeCount exampleFiles "log" : ℚ)
      / (exampleFiles.length : ℚ)) * 100 = 25
    rw [show typeCount exampleFiles "log" = 1 from by decide, hlen]
    norm_num
  · show ((typeCount exampleFiles "No Extension" : ℚ)
      / (exampleFiles.length : ℚ)) * 100 = 25
    rw [show typeCount exampleFiles "No Extension" = 1 from by decide, hlen]
    norm_num
  · intro fns
    exact valueCountsTop_sorted (fns.map extBucket)
  · intro fns
    exact valueCountsTop_len (fns.map extBucket)
  · intro fns p hp
    rw [(valueCountsTop_counts (fns.map extBucket) p hp).1]
    exact bucketCount_map_extBucket fns p.1
  · intro fns b
    exact List.countP_le_length _
  · intro fn h
    unfold extBucket extFirst
    rw [extFirstAux_of_no_dot fn.data h]
    rfl
  · intro schema df h
    simp [extSeries, h]
  · intro schema df h
    simp [extSeries, h]

/-- C6 witness: the no-dot clause applied to the extensionless file
`"d"`, and the `FileName`-branch clause applied to a schema without an
`Extension` column. -/
theorem C6_witness :
    extBucket "d" = "No Extension" ∧
    extSeries schemaNoExt [dirRecord] = [extBucket "dir"] := by
  obtain ⟨-, -, -, -, -, -, -, -, -, -, -, hnodot, -, hbranch⟩ :=
    C6_type_distribution
  exact ⟨hnodot "d" (by decide), hbranch schemaNoExt [dirRecord] rfl⟩

/-- C7 counterexample: the claim excludes directories from size
statistics by default, but `analyze_file_sizes` only drops rows with a
missing `FileSize`: a directory row with size 10 is counted. -/
theorem C7_counterexample :
    dirRecord.is_directory = true ∧
    dirRecord.file_size = some 10 ∧
    (analyzeFileSizes [dirRecord]).count = 1 ∧
    (analyzeFileSizes [dirRecord]).total = 10 := by
  decide

/-- C7 (amended): size statistics are computed over exactly the
records with a present `file_size` — rows with an absent size are
ignored and rows with a present size count regardless of
`is_directory` — and the empty input yields zero count/total with
absent (undefined) mean, median, max and min rather than an error. -/
theorem C7_size_stats :
    (∀ (df : List Record) (r : Record), r.file_size = none →
      analyzeFileSizes (r :: df) = analyzeFileSizes df) ∧
    (∀ (df : List Record) (r : Record) (s : Nat), r.file_size = some s →
      (analyzeFileSizes (r :: df)).count = (analyzeFileSizes df).count + 1 ∧
      (analyzeFileSizes (r :: df)).total = s + (analyzeFileSizes df).total) ∧
    analyzeFileSizes []
      = { count := 0, total := 0, mean := none, median := none,
          largest := none, smallest := none } := by
  refine ⟨?_, ?_, rfl⟩
  · intro df r h
    simp [analyzeFileSizes, List.filterMap_cons, h]
  · intro df r s h
    refine ⟨?_, ?_⟩
    · simp [analyzeFileSizes, List.filterMap_cons, h]
    · simp [analyzeFileSizes, List.filterMap_cons, h]

/-- C7 witness: a size-less row leaves the statistics unchanged and
the directory row with size 10 raises the count by one. -/
theorem C7_witness :
    analyzeFileSizes [baseRecord] = analyzeFileSizes [] ∧
    (analyzeFileSizes [dirRecord]).count = (analyzeFileSizes []).count + 1 :=
  ⟨C7_size_stats.1 [] baseRecord rfl, (C7_size_stats.2.1 [] dirRecord 10 rfl).1⟩

/-- C8: `errors='coerce'` conversion keeps every row (the load
continues), turns any cell the parser rejects into an absent `NaT`
value at the same position, and absent values are excluded from the
timestamp aggregates — prepending an absent value changes no
statistic, so absence is not epoch zero. -/
theorem C8_malformed_recovered :
    ∀ (parse : String → Option Int) (col : List (Option String)),
      (toDatetimeCoerce parse col).length = col.length ∧
      (∀ (i : Nat) (s : String), col[i]? = some (some s) → parse s = none →
        (toDatetimeCoerce parse col)[i]? = some none) ∧
      (∀ rest : List (Option Int), tsStats (none :: rest) = tsStats rest) ∧
      tsStats [none, some 5]
        = { validCount := 1, earliest := some 5, latest := some 5 } := by
  intro parse col
  refine ⟨List.length_map _ _, ?_, fun rest => rfl, by decide⟩
  intro i s h1 h2
  simp only [toDatetimeCoerce, List.getElem?_map, h1]
  simp [h2]

/-- C8 witness: a parser that rejects everything turns the single cell
into `NaT`, and a leading `NaT` leaves `tsStats` unchanged. -/
theorem C8_witness :
    (toDatetimeCoerce (fun _ => none) [some "not a date"])[0]? = some none ∧
    tsStats [none, some 5] = tsStats [some 5] :=
  ⟨(C8_malformed_recovered (fun _ => none) [some "not a date"]).2.1
      0 "not a date" rfl rfl,
    (C8_malformed_recovered (fun _ => none) []).2.2.1 [some 5]⟩

/-- C9: for a load with a known positive total size, every emitted
progress value is at most 100 (the values are naturals, hence within
0-100) and the emitted sequence is monotonically non-decreasing. -/
theorem C9_progress_monotone :
    ∀ (fsz : Nat) (chunkLens : List Nat), 0 < fsz →
      (∀ v ∈ progressSeq fsz chunkLens, v ≤ 100) ∧
      List.Chain' (· ≤ ·) (progressSeq fsz chunkLens) := by
  intro fsz chunkLens _
  obtain ⟨hchain, hbound⟩ := progressAux_bounds fsz chunkLens 0
  exact ⟨fun v hv => (hbound v hv).2, hchain⟩

/-- C9 witness: a concrete 1000-byte file read in chunks of 3 and 4
rows emits a non-decreasing sequence. -/
theorem C9_witness :
    0 < 1000 ∧ List.Chain' (· ≤ ·) (progressSeq 1000 [3, 4]) :=
  ⟨by decide, (C9_progress_monotone 1000 [3, 4] (by decide)).2⟩

/-- C10: when the loaded dataset has no `InUse` column, the
`Deleted Files Only` branch of `export_data_func` cannot apply and the
selection falls through to the entire loaded dataframe, in insertion
order, rather than an empty set or an error. -/
theorem C10_deleted_export_fallback :
    ∀ (schema : Schema) (df filteredDf : List Record),
      schema.hasInUse = false →
      selectExportData "Deleted Files Only" schema df filteredDf = df := by
  intro schema df fdf h
  simp [selectExportData, h]

/-- C10 witness: a concrete schema without `InUse`. -/
theorem C10_witness :
    selectExportData "Deleted Files Only" schemaNoInUse [baseRecord] []
      = [baseRecord] :=
  C10_deleted_export_fallback schemaNoInUse [baseRecord] [] rfl
